import Mathlib

/-!
# Disclosure Ingestion & Aggregation Engine — verification

A shallow embedding of the core logic of the fountain_ai_website repository
(`app.py` and its backup variant): tolerant text parsing of money ranges and
transaction types, accession-identifier extraction from document URLs, the
signed-value aggregation and ranking pipeline, the dual-path fetch with
paginated fallback, and the TTL-cache / scheduled-refresh lifecycle.

Conventions of the embedding:
* Python strings are manipulated through their character lists (`String.data`);
  the Python string primitives used by the source (`split`, `replace`, `strip`,
  `int(...)`) are re-implemented structurally below so that the kernel can
  evaluate them on concrete inputs.
* Monetary values (pandas floats in the source) are modelled as `ℚ`: every
  value the pipeline produces is a mean of integers, hence rational.
* Timestamps (`time.time()` floats) are modelled as `ℤ`; only differences and
  comparisons against the TTL matter.
* `pandas.NaN` / Python `None` cells are modelled as `Option`.
* Fallible fetches (`requests.get` + `raise_for_status`, `RuntimeError`) are
  modelled as `Except` values supplied as inputs describing the upstream's
  behaviour at that instant.
-/

namespace FountainAI

/-! ## Python string primitives (re-implemented over character lists) -/

/-- Decimal digits of a character list folded into a natural number
(the numeric value of a digit string). -/
def digitsToNat (cs : List Char) : ℕ :=
  cs.foldl (fun acc c => acc * 10 + (c.toNat - '0'.toNat)) 0

/-- Strip leading and trailing whitespace, as Python `int` does before
parsing. -/
def stripWs (cs : List Char) : List Char :=
  ((cs.dropWhile Char.isWhitespace).reverse.dropWhile Char.isWhitespace).reverse

/-- Python `int(s)` on a decimal string: optional sign after stripping
whitespace, then a nonempty digit run; any other shape raises, which the
callers catch — modelled as `none`.  (Python's underscore digit grouping and
non-ASCII digits are not exercised by this code base and are not modelled.) -/
def pyIntChars (cs : List Char) : Option ℤ :=
  match stripWs cs with
  | '-' :: rest =>
      if rest ≠ [] ∧ rest.all Char.isDigit then some (-(digitsToNat rest : ℤ)) else none
  | '+' :: rest =>
      if rest ≠ [] ∧ rest.all Char.isDigit then some (digitsToNat rest : ℤ) else none
  | t => if t ≠ [] ∧ t.all Char.isDigit then some (digitsToNat t : ℤ) else none

/-- Characters after the first occurrence of `sep`, if `sep` occurs. -/
def afterFirst (sep : Char) : List Char → Option (List Char)
  | [] => none
  | c :: cs => if c = sep then some cs else afterFirst sep cs

/-- Python `s.split("$", 1)[-1]`: everything after the first `$`, or the whole
string when there is no `$`. -/
def afterFirstDollar (cs : List Char) : List Char :=
  (afterFirst '$' cs).getD cs

/-- Split at the first occurrence of the three-character separator `" - "`:
`some (before, after)` when it occurs, `none` otherwise. -/
def breakOnDash : List Char → Option (List Char × List Char)
  | [] => none
  | c :: cs =>
      if c = ' ' ∧ cs.take 2 = ['-', ' '] then some ([], cs.drop 2)
      else
        match breakOnDash cs with
        | some (pre, post) => some (c :: pre, post)
        | none => none

/-- Python `s.split(" - ")[0]`: the segment before the first `" - "`, or the
whole string when the separator is absent. -/
def dashPart0 (cs : List Char) : List Char :=
  ((breakOnDash cs).map Prod.fst).getD cs

/-- Python `s.split(" - ")[1]` when it exists (`none` models the caught
`IndexError` when the separator is absent). -/
def dashPart1 (cs : List Char) : Option (List Char) :=
  (breakOnDash cs).map (fun p => ((breakOnDash p.2).map Prod.fst).getD p.2)

/-- Python `s.replace(c, "")` for a single character: drop every occurrence. -/
def dropAll (c : Char) (cs : List Char) : List Char :=
  cs.filter (fun x => x ≠ c)

/-- The segment before the first occurrence of `sep` (Python
`s.split(sep)[0]` for a single-character separator). -/
def beforeFirst (sep : Char) : List Char → List Char
  | [] => []
  | c :: cs => if c = sep then [] else c :: beforeFirst sep cs

/-! ## TextExtractor: money ranges (`low_amt` / `high_amt` in the source) -/

/-- `low_amt(s)` from `_load_congress_trades`:
`int(s.split("$", 1)[-1].split(" - ")[0].replace(",", ""))`, with every
failure caught and turned into `None`. -/
def low_amt (s : String) : Option ℤ :=
  pyIntChars (dropAll ',' (dashPart0 (afterFirstDollar s.data)))

/-- `high_amt(s)` from `_load_congress_trades`:
`int(s.split("$", 1)[-1].split(" - ")[1].replace("$", "").replace(",", ""))`,
with every failure (including the `IndexError` when `" - "` is absent) caught
and turned into `None`. -/
def high_amt (s : String) : Option ℤ :=
  match dashPart1 (afterFirstDollar s.data) with
  | none => none
  | some b => pyIntChars (dropAll ',' (dropAll '$' b))

/-- The spec's `parse_amount_range`: the pair of tolerant bound parsers applied
to the same transaction text. -/
def parse_amount_range (s : String) : Option ℤ × Option ℤ :=
  (low_amt s, high_amt s)

/-! ## TextExtractor: transaction type and signed value -/

/-- `trans_type(s)` from `_load_congress_trades`:
`s.split(" ")[0] if isinstance(s, str) else None`. -/
def trans_type (s : Option String) : Option String :=
  s.map (fun t => ⟨beforeFirst ' ' t.data⟩)

/-- `Est. Trade Value`: pandas row mean of the two bounds, which skips
missing cells — the mean of both bounds, a single present bound, or missing. -/
def estTradeValue (low high : Option ℤ) : Option ℚ :=
  match low, high with
  | some a, some b => some (((a : ℚ) + (b : ℚ)) / 2)
  | some a, none => some (a : ℚ)
  | none, some b => some (b : ℚ)
  | none, none => none

/-- The `Signed Value` lambda of `_load_congress_trades`: `+estimate` when the
transaction type is exactly the string `"Purchase"`, `-estimate` when it is
exactly `"Sale"`, and the constant `0` for every other value (including a
missing type). A missing estimate (`NaN`) propagates through the first two
branches. -/
def signedValue (transType : Option String) (est : Option ℚ) : Option ℚ :=
  if transType = some "Purchase" then est
  else if transType = some "Sale" then est.map (fun v => -v)
  else some 0

/-! ## TextExtractor: accession identifiers (`_acc_from_link`) -/

/-- Attempt the regex `/data/\d+/(\d{10,})/` at the head of the list: the
literal `/data/`, a nonempty digit run, `/`, a digit run of length at least
10 (captured), `/`.  Greedy digit matching followed by a mandatory `/` is
deterministic, so plain `takeWhile` is an exact model. -/
def matchDataAt (cs : List Char) : Option (List Char) :=
  if cs.take 6 = "/data/".data then
    let rest := cs.drop 6
    let d1 := rest.takeWhile Char.isDigit
    let rest2 := rest.drop d1.length
    if d1 ≠ [] ∧ rest2.head? = some '/' then
      let rest3 := rest2.drop 1
      let d2 := rest3.takeWhile Char.isDigit
      if 10 ≤ d2.length ∧ (rest3.drop d2.length).head? = some '/' then some d2
      else none
    else none
  else none

/-- `re.search` of `/data/\d+/(\d{10,})/`: try the pattern at each position
from the left, returning the first capture. -/
def searchData : List Char → Option (List Char)
  | [] => none
  | c :: cs =>
      match matchDataAt (c :: cs) with
      | some r => some r
      | none => searchData cs

/-- Maximal digit runs of a character list, left to right (the matches of the
regex `\d+`; `re.findall(r"(\d{10,})", url)` is exactly these runs filtered by
length at least 10, since a greedy match always extends to the full run). -/
def digitRunsAux : List Char → List Char → List (List Char)
  | [], cur => if cur = [] then [] else [cur.reverse]
  | c :: cs, cur =>
      if c.isDigit then digitRunsAux cs (c :: cur)
      else if cur = [] then digitRunsAux cs [] else cur.reverse :: digitRunsAux cs []

/-- All maximal digit runs of a character list. -/
def digitRuns (cs : List Char) : List (List Char) :=
  digitRunsAux cs []

/-- The maximal digit runs of length at least 10 (the matches of
`\d{10,}`). -/
def runs10 (url : String) : List (List Char) :=
  (digitRuns url.data).filter (fun r => 10 ≤ r.length)

/-- Python `max(m, key=len)`: the first element of maximal length. -/
def maxByLen : List Char → List (List Char) → List Char
  | best, [] => best
  | best, x :: xs => if best.length < x.length then maxByLen x xs else maxByLen best xs

/-- `_acc_from_link(url)`: prefer the first digit run of length at least 10
that follows a `/data/<digits>/` segment and is itself terminated by `/`;
otherwise the longest (first on ties) digit run of length at least 10;
`None` when neither exists. -/
def acc_from_link (url : String) : Option String :=
  match searchData url.data with
  | some r => some ⟨r⟩
  | none =>
      match runs10 url with
      | [] => none
      | r :: rs => some ⟨maxByLen r rs⟩

/-! ## AggregationEngine (`_compute_top_bottom`)

A `TradeRecord` is one normalized row of the concatenated Senate/House
trades table: only the three columns the ranking pipeline reads are kept.
`none` models a `NaN` cell. -/

structure TradeRecord where
  stock : Option String
  signedValue : Option ℚ
  filed : Option ℤ

/-- `df.dropna(subset=["Filed", "Signed Value", "Stock"])`: keep the rows in
which all three columns are present. -/
def survivors (rs : List TradeRecord) : List TradeRecord :=
  rs.filter (fun r => r.filed.isSome && r.signedValue.isSome && r.stock.isSome)

/-- Code-point comparison of characters (Python string ordering is
lexicographic by code point). -/
def charLtNat (a b : Char) : Prop := a.toNat < b.toNat

/-- Lexicographic strict order on character lists by code point. -/
def lexLt : List Char → List Char → Bool
  | [], [] => false
  | [], _ :: _ => true
  | _ :: _, [] => false
  | a :: as, b :: bs =>
      if a.toNat < b.toNat then true
      else if b.toNat < a.toNat then false
      else lexLt as bs

/-- Strict ascending symbol order (Python `<` on strings). -/
def symLt (a b : String) : Bool := lexLt a.data b.data

/-- Insert a symbol into a strictly ascending symbol list, keeping it
strictly ascending (duplicates collapse). -/
def insertKey (s : String) : List String → List String
  | [] => [s]
  | k :: ks =>
      if symLt s k then s :: k :: ks
      else if s = k then k :: ks
      else k :: insertKey s ks

/-- The group keys of `df.groupby("Stock")`: the distinct stock symbols in
ascending order (pandas sorts group keys ascending). -/
def groupKeys (syms : List String) : List String :=
  syms.foldl (fun ks s => insertKey s ks) []

/-- The net signed value of one symbol: the sum of `Signed Value` over the
surviving rows of that symbol (`df.groupby("Stock")["Signed Value"].sum()`
for one group). -/
def netSum (rs : List TradeRecord) (s : String) : ℚ :=
  ((((survivors rs).filter (fun r => r.stock = some s)).filterMap
    (fun r => r.signedValue)).foldr (· + ·) 0)

/-- The grouped series `df.groupby("Stock")["Signed Value"].sum()` as an
association list in ascending symbol order. -/
def netList (rs : List TradeRecord) : List (String × ℚ) :=
  (groupKeys ((survivors rs).filterMap (fun r => r.stock))).map
    (fun s => (s, netSum rs s))

/-- Comparison of grouped entries by net value (the key of
`sort_values()`). -/
def valLe (a b : String × ℚ) : Bool := decide (a.2 ≤ b.2)

/-- Insert into a list sorted by `le`, before the first element that `a` may
precede. -/
def ordInsert (le : α → α → Bool) (a : α) : List α → List α
  | [] => [a]
  | b :: l => if le a b then a :: b :: l else b :: ordInsert le a l

/-- Stable insertion sort by a boolean comparator.  `Series.sort_values()` is
modelled as a stable sort; for the list sizes reachable in this pipeline the
underlying numpy introsort degenerates to (stable) insertion sort. -/
def sortBy (le : α → α → Bool) : List α → List α
  | [] => []
  | a :: l => ordInsert le a (sortBy le l)

/-- `net.sort_values()`: the grouped sums sorted ascending by value. -/
def sortedNet (rs : List TradeRecord) : List (String × ℚ) :=
  sortBy valLe (netList rs)

/-- The `Filed` date span of the surviving rows:
`some (min, max)` or `none`, which the source formats as `"N/A"`. -/
def dateRangeOf (rs : List TradeRecord) : Option (ℤ × ℤ) :=
  let ds := (survivors rs).filterMap (fun r => r.filed)
  match ds.min?, ds.max? with
  | some a, some b => some (a, b)
  | _, _ => none

/-- The payload of `_compute_top_bottom` (`generated_at` stamping happens in
the caller and carries no logic). -/
structure RankingResult where
  dateRange : Option (ℤ × ℤ)
  top10 : List (String × ℚ)
  bottom10 : List (String × ℚ)
deriving DecidableEq

/-- `_compute_top_bottom(df, n)`: drop incomplete rows, group by symbol,
sum signed values, sort ascending; `bottom = net.head(n)` and
`top = net[::-1].head(n)`. -/
def computeTopBottom (rs : List TradeRecord) (n : ℕ) : RankingResult :=
  { dateRange := dateRangeOf rs
    top10 := ((sortedNet rs).reverse).take n
    bottom10 := (sortedNet rs).take n }

/-! ## CacheStore (`CACHE` / `HOME_SEC_CACHE` pattern) -/

/-- A module-level cache dictionary: an optional payload snapshot plus the
timestamp of its generation. -/
structure CacheState (α : Type) where
  payload : Option α
  ts : ℤ
deriving DecidableEq

/-- `CACHE_TTL = HOME_SEC_TTL = 300` seconds. -/
def CACHE_TTL : ℤ := 300

/-- The spec's `get_or_refresh(key, ttl, refresh_fn)` — the cache pattern
repeated by every endpoint: serve the payload when it exists and is fresh,
otherwise invoke the refresh (its result for this call is `refreshResult`)
and store it with the current timestamp.  The returned flag records whether
the refresh function was invoked. -/
def getOrRefresh {α : Type} (ttl : ℤ) (st : CacheState α) (now : ℤ)
    (refreshResult : α) : α × CacheState α × Bool :=
  match st.payload with
  | some p =>
      if now - st.ts < ttl then (p, st, false)
      else (refreshResult, ⟨some refreshResult, now⟩, true)
  | none => (refreshResult, ⟨some refreshResult, now⟩, true)

/-- The `/api/congress/top-bottom` handler `congress_top_bottom`: serve the
cached payload when fresh; otherwise run `_load_congress_trades` +
`_compute_top_bottom` (outcome `fetch`; an exception propagates to the HTTP
layer as an error status and leaves the cache untouched) and store the new
payload.  The flag records whether the live fetch was attempted. -/
def congressTopBottom {α : Type} (st : CacheState α) (now : ℤ)
    (fetch : Except Unit α) : Except Unit α × CacheState α × Bool :=
  match st.payload with
  | some p =>
      if now - st.ts < CACHE_TTL then (.ok p, st, false)
      else
        match fetch with
        | .ok q => (.ok q, ⟨some q, now⟩, true)
        | .error e => (.error e, st, true)
  | none =>
      match fetch with
      | .ok q => (.ok q, ⟨some q, now⟩, true)
      | .error e => (.error e, st, true)

/-- Whether a handler outcome is an error status. -/
def isErr {α : Type} : Except Unit α → Bool
  | .ok _ => false
  | .error _ => true

/-- The `/api/home/sec-recent` handler `sec_recent`, caching view: the cache
check reads the single module-level `HOME_SEC_CACHE` and ignores the `forms`
and `count` request parameters; on a miss the whole fetch/filter pipeline
(abstracted as `compute`, which does depend on the parameters) runs and its
payload is stored. -/
def secRecentCached {α : Type} (st : CacheState α) (now : ℤ)
    (forms : String) (count : ℕ) (compute : String → ℕ → α) :
    α × CacheState α :=
  match st.payload with
  | some p =>
      if now - st.ts < CACHE_TTL then (p, st)
      else (compute forms count, ⟨some (compute forms count), now⟩)
  | none => (compute forms count, ⟨some (compute forms count), now⟩)

/-! ## RefreshScheduler (`schedule_weekly_refresh`) -/

/-- The `try/except` around each `_refresh_congress_cache()` call in
`loop_refresh`: any exception is printed and swallowed, so the iteration
always completes normally. -/
def caughtRefresh (r : Except String Unit) : Except String Unit :=
  match r with
  | .ok _ => .ok ()
  | .error _ => .ok ()

/-- The scheduled loop after `n` sleep intervals: one refresh invocation
immediately on startup (iteration 0), then one per completed sleep.
`f i` is the outcome of the `i`-th invocation of `_refresh_congress_cache`.
The result counts the invocations performed; an `error` result would mean an
exception escaped the loop. -/
def loopRefreshRun (f : ℕ → Except String Unit) : ℕ → Except String ℕ
  | 0 => do
      let _ ← caughtRefresh (f 0)
      pure 1
  | n + 1 => do
      let k ← loopRefreshRun f n
      let _ ← caughtRefresh (f (n + 1))
      pure (k + 1)

/-! ## SourceFetcher: `fetch_current_filings` fallback pagination
(`sec_recent`, backup variant)

One scraped table row is modelled with the two fields the loop reads: its
cell count (`len(tds)`) and the cleaned upper-cased form text of its first
cell.  The HTML/BeautifulSoup extraction itself carries no control logic. -/

structure ScrapedRow where
  ncols : ℕ
  form : String
deriving DecidableEq

/-- The inner row loop of the HTML fallback: skip rows with fewer than 3
cells, skip rows whose form fails the (nonempty) wanted-forms filter, append
the rest, and break out as soon as the accumulated filings reach `count`. -/
def scanRows (wants : List String) (count : ℕ) :
    List ScrapedRow → List ScrapedRow → List ScrapedRow
  | [], acc => acc
  | r :: rs, acc =>
      if r.ncols < 3 then scanRows wants count rs acc
      else if !wants.isEmpty && !wants.contains r.form then scanRows wants count rs acc
      else if count ≤ (acc ++ [r]).length then acc ++ [r]
      else scanRows wants count rs (acc ++ [r])

/-- The page starts requested by the fallback:
`range(0, min(200, remaining + 40), 40)` where
`remaining = count - len(filings)`. -/
def fallbackStarts (count len0 : ℕ) : List ℕ :=
  let remaining := count - len0
  let bound := min 200 (remaining + 40)
  (List.range ((bound + 39) / 40)).map (fun i => i * 40)

/-- The outer page loop of the HTML fallback: scan each 40-row page in turn,
stopping as soon as the accumulated filings reach `count`.  `pages start` is
the row list served by the upstream for that page start. -/
def pageLoop (pages : ℕ → List ScrapedRow) (wants : List String) (count : ℕ) :
    List ℕ → List ScrapedRow → List ScrapedRow
  | [], acc => acc
  | s :: ss, acc =>
      if count ≤ (scanRows wants count (pages s) acc).length then
        scanRows wants count (pages s) acc
      else pageLoop pages wants count ss (scanRows wants count (pages s) acc)

/-- Number of page fetches the fallback loop performs before stopping. -/
def pageLoopCount (pages : ℕ → List ScrapedRow) (wants : List String) (count : ℕ) :
    List ℕ → List ScrapedRow → ℕ
  | [], _ => 0
  | s :: ss, acc =>
      if count ≤ (scanRows wants count (pages s) acc).length then 1
      else 1 + pageLoopCount pages wants count ss (scanRows wants count (pages s) acc)

/-- The fallback stage of `sec_recent` (backup variant): entered only when the
Atom stage left fewer than `count` filings (`filings0`); pages are scanned in
40-row steps. -/
def secRecentFallback (pages : ℕ → List ScrapedRow) (wants : List String)
    (count : ℕ) (filings0 : List ScrapedRow) : List ScrapedRow :=
  if filings0.length < count then
    pageLoop pages wants count (fallbackStarts count filings0.length) filings0
  else filings0

/-- Number of page fetches performed by the fallback stage. -/
def fallbackPagesFetched (pages : ℕ → List ScrapedRow) (wants : List String)
    (count : ℕ) (filings0 : List ScrapedRow) : ℕ :=
  if filings0.length < count then
    pageLoopCount pages wants count (fallbackStarts count filings0.length) filings0
  else 0

/-! ## Order predicates used to state the ranking properties -/

/-- Strict ascending symbol order between grouped entries. -/
def keyLt (x y : String × ℚ) : Prop := symLt x.1 y.1 = true

/-- Ascending net-value order with ties in ascending symbol order. -/
def valLexAsc (x y : String × ℚ) : Prop :=
  x.2 < y.2 ∨ (x.2 = y.2 ∧ symLt x.1 y.1 = true)

/-- Descending net-value order with ties in descending symbol order. -/
def valLexDesc (x y : String × ℚ) : Prop :=
  y.2 < x.2 ∨ (x.2 = y.2 ∧ symLt y.1 x.1 = true)

/-! ## Concrete inputs named in the spec's testable properties -/

/-- The spec's worked aggregation example:
records `[{A,+100,d1}, {A,-30,d2}, {B,+50,d3}]` with dates `d1=1, d2=2,
d3=3`. -/
def exC2 : List TradeRecord :=
  [⟨some "A", some 100, some 1⟩, ⟨some "A", some (-30), some 2⟩,
   ⟨some "B", some 50, some 3⟩]

/-- Two symbols with equal net signed value, for the tie-ordering analysis. -/
def exTie : List TradeRecord :=
  [⟨some "A", some 50, some 1⟩, ⟨some "B", some 50, some 1⟩]

/-! ## Lemmas: the symbol order is a strict linear order -/

theorem char_toNat_inj {a b : Char} (h : a.toNat = b.toNat) : a = b :=
  Char.ext (UInt32.ext h)

theorem string_data_inj {a b : String} (h : a.data = b.data) : a = b := by
  cases a
  cases b
  exact congrArg String.mk h

theorem lexLt_cons_iff (x y : Char) (xs ys : List Char) :
    lexLt (x :: xs) (y :: ys) = true ↔
      x.toNat < y.toNat ∨ (x.toNat = y.toNat ∧ lexLt xs ys = true) := by
  simp only [lexLt]
  split_ifs with h1 h2
  · simp [h1]
  · simp only [false_iff]
    rintro (h | ⟨h, _⟩) <;> omega
  · have hxy : x.toNat = y.toNat := by omega
    simp [hxy]

theorem lexLt_trans :
    ∀ (a b c : List Char), lexLt a b = true → lexLt b c = true → lexLt a c = true := by
  intro a
  induction a with
  | nil =>
      intro b c hab hbc
      cases b with
      | nil => simp [lexLt] at hab
      | cons y ys =>
          cases c with
          | nil => simp [lexLt] at hbc
          | cons z zs => simp [lexLt]
  | cons x xs ih =>
      intro b c hab hbc
      cases b with
      | nil => simp [lexLt] at hab
      | cons y ys =>
          cases c with
          | nil => simp [lexLt] at hbc
          | cons z zs =>
              rw [lexLt_cons_iff] at hab hbc ⊢
              rcases hab with h1 | ⟨h1, h1l⟩
              · rcases hbc with h2 | ⟨h2, _⟩
                · exact Or.inl (by omega)
                · exact Or.inl (by omega)
              · rcases hbc with h2 | ⟨h2, h2l⟩
                · exact Or.inl (by omega)
                · exact Or.inr ⟨by omega, ih ys zs h1l h2l⟩

theorem lexLt_eq_of_not :
    ∀ (a b : List Char), lexLt a b = false → lexLt b a = false → a = b := by
  intro a
  induction a with
  | nil =>
      intro b hab _
      cases b with
      | nil => rfl
      | cons y ys => simp [lexLt] at hab
  | cons x xs ih =>
      intro b hab hba
      cases b with
      | nil => simp [lexLt] at hba
      | cons y ys =>
          have h1 : ¬ (x.toNat < y.toNat ∨ (x.toNat = y.toNat ∧ lexLt xs ys = true)) := by
            rw [← lexLt_cons_iff]
            simp [hab]
          have h2 : ¬ (y.toNat < x.toNat ∨ (y.toNat = x.toNat ∧ lexLt ys xs = true)) := by
            rw [← lexLt_cons_iff]
            simp [hba]
          push_neg at h1 h2
          have hxy : x.toNat = y.toNat := by omega
          have hxs : lexLt xs ys = false := by
            have := h1.2 hxy
            simpa using this
          have hys : lexLt ys xs = false := by
            have := h2.2 hxy.symm
            simpa using this
          rw [char_toNat_inj hxy, ih ys hxs hys]

theorem symLt_trans (a b c : String) :
    symLt a b = true → symLt b c = true → symLt a c = true :=
  lexLt_trans a.data b.data c.data

theorem symLt_eq_of_not (a b : String) :
    symLt a b = false → symLt b a = false → a = b := by
  intro h1 h2
  exact string_data_inj (lexLt_eq_of_not a.data b.data h1 h2)

theorem symLt_of_not (a b : String) (h1 : ¬ symLt a b = true) (h2 : a ≠ b) :
    symLt b a = true := by
  cases hba : symLt b a with
  | true => rfl
  | false =>
      have hab : symLt a b = false := by
        cases hc : symLt a b with
        | true => exact absurd hc h1
        | false => rfl
      exact absurd (symLt_eq_of_not a b hab hba) h2

/-! ## Lemmas: group keys are the distinct symbols in ascending order -/

theorem mem_insertKey (s x : String) :
    ∀ ks : List String, x ∈ insertKey s ks ↔ x = s ∨ x ∈ ks := by
  intro ks
  induction ks with
  | nil => simp [insertKey]
  | cons k ks ih =>
      simp only [insertKey]
      split_ifs with hs hk
      · simp [List.mem_cons]
      · subst hk
        simp only [List.mem_cons]
        tauto
      · simp only [List.mem_cons, ih]
        tauto

theorem insertKey_pairwise (s : String) :
    ∀ ks : List String, ks.Pairwise (fun a b => symLt a b = true) →
      (insertKey s ks).Pairwise (fun a b => symLt a b = true) := by
  intro ks
  induction ks with
  | nil =>
      intro _
      simp [insertKey]
  | cons k ks ih =>
      intro h
      obtain ⟨hk, hks⟩ := List.pairwise_cons.mp h
      simp only [insertKey]
      split_ifs with hs heq
      · refine List.Pairwise.cons ?_ h
        intro b hb
        rcases List.mem_cons.mp hb with rfl | hb
        · exact hs
        · exact symLt_trans s k b hs (hk b hb)
      · exact h
      · refine List.Pairwise.cons ?_ (ih hks)
        intro b hb
        rcases (mem_insertKey s b ks).mp hb with rfl | hb
        · exact symLt_of_not b k hs heq
        · exact hk b hb

theorem foldl_insertKey_pairwise :
    ∀ (l acc : List String), acc.Pairwise (fun a b => symLt a b = true) →
      (l.foldl (fun ks s => insertKey s ks) acc).Pairwise (fun a b => symLt a b = true) := by
  intro l
  induction l with
  | nil => intro acc h; exact h
  | cons s l ih =>
      intro acc h
      exact ih (insertKey s acc) (insertKey_pairwise s acc h)

theorem groupKeys_pairwise (l : List String) :
    (groupKeys l).Pairwise (fun a b => symLt a b = true) :=
  foldl_insertKey_pairwise l [] (by simp)

theorem mem_foldl_insertKey :
    ∀ (l acc : List String) (x : String),
      x ∈ l.foldl (fun ks s => insertKey s ks) acc ↔ x ∈ acc ∨ x ∈ l := by
  intro l
  induction l with
  | nil => simp
  | cons s l ih =>
      intro acc x
      simp only [List.foldl_cons, ih (insertKey s acc) x, mem_insertKey, List.mem_cons]
      tauto

theorem mem_groupKeys (l : List String) (x : String) : x ∈ groupKeys l ↔ x ∈ l := by
  simpa using mem_foldl_insertKey l [] x

/-! ## Lemmas: the stable sort by net value -/

theorem perm_ordInsert {α : Type} (le : α → α → Bool) (a : α) :
    ∀ l : List α, (ordInsert le a l).Perm (a :: l) := by
  intro l
  induction l with
  | nil => simp [ordInsert]
  | cons b l ih =>
      simp only [ordInsert]
      split_ifs with h
      · exact List.Perm.refl _
      · exact (List.Perm.cons b ih).trans (List.Perm.swap a b l)

theorem perm_sortBy {α : Type} (le : α → α → Bool) :
    ∀ l : List α, (sortBy le l).Perm l := by
  intro l
  induction l with
  | nil => exact List.Perm.refl _
  | cons a l ih =>
      exact (perm_ordInsert le a (sortBy le l)).trans (List.Perm.cons a ih)

theorem mem_ordInsert {α : Type} (le : α → α → Bool) (a x : α) (l : List α) :
    x ∈ ordInsert le a l ↔ x = a ∨ x ∈ l := by
  rw [(perm_ordInsert le a l).mem_iff, List.mem_cons]

theorem valLexAsc_le {x y : String × ℚ} (h : valLexAsc x y) : x.2 ≤ y.2 := by
  rcases h with h | ⟨h, _⟩
  · exact le_of_lt h
  · exact le_of_eq h

theorem ordInsert_lex (a : String × ℚ) :
    ∀ m : List (String × ℚ), m.Pairwise valLexAsc →
      (∀ b ∈ m, symLt a.1 b.1 = true) →
      (ordInsert valLe a m).Pairwise valLexAsc := by
  intro m
  induction m with
  | nil =>
      intro _ _
      simp [ordInsert]
  | cons b m ih =>
      intro hm ha
      obtain ⟨hb, hm'⟩ := List.pairwise_cons.mp hm
      simp only [ordInsert]
      split_ifs with h
      · have hab : a.2 ≤ b.2 := of_decide_eq_true h
        refine List.Pairwise.cons ?_ hm
        intro x hx
        rcases List.mem_cons.mp hx with rfl | hx
        · rcases lt_or_eq_of_le hab with h2 | h2
          · exact Or.inl h2
          · exact Or.inr ⟨h2, ha x (List.mem_cons_self x m)⟩
        · have hax : a.2 ≤ x.2 := le_trans hab (valLexAsc_le (hb x hx))
          rcases lt_or_eq_of_le hax with h2 | h2
          · exact Or.inl h2
          · exact Or.inr ⟨h2, ha x (List.mem_cons_of_mem b hx)⟩
      · have hba : b.2 < a.2 := lt_of_not_le (fun hc => h (decide_eq_true hc))
        refine List.Pairwise.cons ?_
          (ih hm' (fun x hx => ha x (List.mem_cons_of_mem b hx)))
        intro y hy
        rcases (mem_ordInsert valLe a y m).mp hy with rfl | hy
        · exact Or.inl hba
        · exact hb y hy

theorem sortBy_lex :
    ∀ l : List (String × ℚ), l.Pairwise keyLt → (sortBy valLe l).Pairwise valLexAsc := by
  intro l
  induction l with
  | nil =>
      intro _
      simp [sortBy]
  | cons a l ih =>
      intro h
      obtain ⟨h1, h2⟩ := List.pairwise_cons.mp h
      exact ordInsert_lex a (sortBy valLe l) (ih h2)
        (fun b hb => h1 b ((perm_sortBy valLe l).mem_iff.mp hb))

/-! ## Lemmas: the grouped series and its sort -/

theorem netList_keys (rs : List TradeRecord) : (netList rs).Pairwise keyLt := by
  rw [netList, List.pairwise_map]
  exact groupKeys_pairwise _

theorem sortedNet_lex (rs : List TradeRecord) : (sortedNet rs).Pairwise valLexAsc :=
  sortBy_lex (netList rs) (netList_keys rs)

theorem sortedNet_perm (rs : List TradeRecord) : (sortedNet rs).Perm (netList rs) :=
  perm_sortBy valLe (netList rs)

theorem sortedNet_le (rs : List TradeRecord) :
    (sortedNet rs).Pairwise (fun x y : String × ℚ => x.2 ≤ y.2) :=
  (sortedNet_lex rs).imp (fun h => valLexAsc_le h)

/-! ## Lemmas: Python max by length -/

theorem maxByLen_choice (b : List Char) :
    ∀ xs : List (List Char), maxByLen b xs = b ∨ maxByLen b xs ∈ xs := by
  intro xs
  induction xs generalizing b with
  | nil => exact Or.inl rfl
  | cons x xs ih =>
      simp only [maxByLen]
      split_ifs with h
      · rcases ih x with h2 | h2
        · exact Or.inr (by simp [h2])
        · exact Or.inr (List.mem_cons_of_mem x h2)
      · rcases ih b with h2 | h2
        · exact Or.inl h2
        · exact Or.inr (List.mem_cons_of_mem x h2)

theorem maxByLen_ge (b : List Char) :
    ∀ xs : List (List Char),
      b.length ≤ (maxByLen b xs).length ∧
        ∀ x ∈ xs, x.length ≤ (maxByLen b xs).length := by
  intro xs
  induction xs generalizing b with
  | nil => exact ⟨le_refl _, by simp⟩
  | cons x xs ih =>
      simp only [maxByLen]
      split_ifs with h
      · obtain ⟨h1, h2⟩ := ih x
        refine ⟨le_trans (le_of_lt h) h1, ?_⟩
        intro y hy
        rcases List.mem_cons.mp hy with rfl | hy
        · exact h1
        · exact h2 y hy
      · obtain ⟨h1, h2⟩ := ih b
        refine ⟨h1, ?_⟩
        intro y hy
        rcases List.mem_cons.mp hy with rfl | hy
        · exact le_trans (le_of_not_lt h) h1
        · exact h2 y hy

/-! ## Lemmas: fallback pagination and the scheduled loop -/

theorem pageLoop_exhausts (pages : ℕ → List ScrapedRow) (wants : List String)
    (count : ℕ) :
    ∀ (ss : List ℕ) (acc : List ScrapedRow),
      count ≤ (pageLoop pages wants count ss acc).length ∨
        pageLoopCount pages wants count ss acc = ss.length := by
  intro ss
  induction ss with
  | nil =>
      intro acc
      exact Or.inr rfl
  | cons s ss ih =>
      intro acc
      simp only [pageLoop, pageLoopCount]
      split_ifs with h
      · exact Or.inl h
      · rcases ih (scanRows wants count (pages s) acc) with h2 | h2
        · exact Or.inl h2
        · exact Or.inr (by rw [h2, List.length_cons]; omega)

theorem caughtRefresh_eq (r : Except String Unit) : caughtRefresh r = .ok () := by
  cases r <;> rfl

theorem valLexAsc_flip {a b : String × ℚ} (h : valLexAsc a b) : valLexDesc b a := by
  rcases h with h | ⟨he, hs⟩
  · exact Or.inl h
  · exact Or.inr ⟨he.symm, hs⟩

/-! ## The claims -/

/-- C1 (amended): the ranking endpoint returns the cached payload without
attempting the live fetch exactly when a cached payload exists and is fresh
(age < TTL); in every other case — cache empty **or merely stale** — the live
fetch runs and its outcome is the response, so an error status is surfaced
exactly when the cache is empty or stale and the live fetch fails.  (The
claim's "once any cached value exists it is always preferred over raising" is
false: a stale cache does not protect against a failing fetch.) -/
theorem claim_C1 (α : Type) (st : CacheState α) (now : ℤ) (fetch : Except Unit α) :
    (isErr (congressTopBottom st now fetch).1 = true ↔
      ((st.payload = none ∨ CACHE_TTL ≤ now - st.ts) ∧ isErr fetch = true)) ∧
    ((congressTopBottom st now fetch).2.2 = false ↔
      (st.payload ≠ none ∧ now - st.ts < CACHE_TTL)) ∧
    (((congressTopBottom st now fetch).2.2 = true ∧
        (congressTopBottom st now fetch).1 = fetch) ∨
      ((congressTopBottom st now fetch).2.2 = false ∧ ∃ p, st.payload = some p ∧
        (congressTopBottom st now fetch).1 = .ok p)) := by
  obtain ⟨pl, ts⟩ := st
  cases pl with
  | none => cases fetch <;> simp [congressTopBottom, isErr]
  | some p =>
      by_cases h : now - ts < CACHE_TTL
      · simp [congressTopBottom, isErr, h, not_le.mpr h]
      · cases fetch <;> simp [congressTopBottom, isErr, h, not_lt.mp h]

/-- C1, counterexample to the claim as stated: a cached payload exists
(`some 0`, stored at time 0) but is stale at time 300, the live fetch fails,
and the endpoint surfaces an error status instead of serving the cached
value. -/
theorem claim_C1_counterexample :
    congressTopBottom (⟨some 0, 0⟩ : CacheState ℕ) 300 (.error ())
      = (.error (), ⟨some 0, 0⟩, true) := by
  simp [congressTopBottom, CACHE_TTL]

/-- C3: starting from an empty cache, a first call at `t0` invokes the
refresh and stores its result with timestamp `t0`; a second call at `t1`
inside the TTL window does not invoke the refresh and returns the stored
payload; a third call at `t2` at or past the TTL invokes the refresh a second
time and stores the new result with timestamp `t2`. -/
theorem claim_C3 (α : Type) (ttl t0 t1 t2 ts0 : ℤ) (p1 p2 p3 : α)
    (h1 : t1 - t0 < ttl) (h2 : ttl ≤ t2 - t0) :
    getOrRefresh ttl ⟨none, ts0⟩ t0 p1 = (p1, ⟨some p1, t0⟩, true) ∧
    getOrRefresh ttl ⟨some p1, t0⟩ t1 p2 = (p1, ⟨some p1, t0⟩, false) ∧
    getOrRefresh ttl ⟨some p1, t0⟩ t2 p3 = (p3, ⟨some p3, t2⟩, true) := by
  refine ⟨rfl, ?_, ?_⟩
  · simp only [getOrRefresh]
    rw [if_pos h1]
  · simp only [getOrRefresh]
    rw [if_neg (not_lt.mpr h2)]

/-- C3, witness: TTL 300, calls at times 0, 299 and 300. -/
theorem claim_C3_witness :
    getOrRefresh 300 ⟨none, 0⟩ 0 (1 : ℕ) = (1, ⟨some 1, 0⟩, true) ∧
    getOrRefresh 300 ⟨some 1, 0⟩ 299 2 = (1, ⟨some 1, 0⟩, false) ∧
    getOrRefresh 300 ⟨some 1, 0⟩ 300 3 = (3, ⟨some 3, 300⟩, true) :=
  claim_C3 ℕ 300 0 299 300 0 1 2 3 (by decide) (by decide)

/-- C9: the scheduled refresh loop performs one invocation immediately and
one more per completed sleep interval, and never terminates on a refresh
exception; in particular, with the first two invocations failing, a third
invocation still happens after the next interval. -/
theorem claim_C9 :
    (∀ (f : ℕ → Except String Unit) (n : ℕ), loopRefreshRun f n = .ok (n + 1)) ∧
    loopRefreshRun (fun i => if i < 2 then .error "refresh failed" else .ok ()) 2
      = .ok 3 := by
  have main : ∀ (f : ℕ → Except String Unit) (n : ℕ), loopRefreshRun f n = .ok (n + 1) := by
    intro f n
    induction n with
    | zero =>
        simp only [loopRefreshRun, caughtRefresh_eq]
        rfl
    | succ n ih =>
        simp only [loopRefreshRun, ih, caughtRefresh_eq]
        rfl
  exact ⟨main, main _ 2⟩

/-- C10: the recent-filings endpoint caches under a single key that ignores
the request parameters: after a first call stores the payload computed for
`forms1`/`count1`, a second call inside the TTL window returns that payload
unchanged even with different `forms2`/`count2` arguments. -/
theorem claim_C10 (α : Type) (t0 t1 ts0 : ℤ) (forms1 forms2 : String)
    (count1 count2 : ℕ) (compute : String → ℕ → α)
    (h : t1 - t0 < CACHE_TTL) :
    secRecentCached ⟨none, ts0⟩ t0 forms1 count1 compute
      = (compute forms1 count1, ⟨some (compute forms1 count1), t0⟩) ∧
    secRecentCached ⟨some (compute forms1 count1), t0⟩ t1 forms2 count2 compute
      = (compute forms1 count1, ⟨some (compute forms1 count1), t0⟩) := by
  refine ⟨rfl, ?_⟩
  simp only [secRecentCached]
  rw [if_pos h]

/-- C10, witness: the first call caches the payload for forms
`"10-K,10-Q,8-K"`, count 50; a later call with forms `"8-K"`, count 10 still
gets it. -/
theorem claim_C10_witness :
    secRecentCached ⟨none, 0⟩ 0 "10-K,10-Q,8-K" 50 (fun f c => (f, c))
      = (("10-K,10-Q,8-K", 50), ⟨some ("10-K,10-Q,8-K", 50), 0⟩) ∧
    secRecentCached ⟨some ("10-K,10-Q,8-K", 50), 0⟩ 100 "8-K" 10 (fun f c => (f, c))
      = (("10-K,10-Q,8-K", 50), ⟨some ("10-K,10-Q,8-K", 50), 0⟩) :=
  claim_C10 (String × ℕ) 0 100 0 "10-K,10-Q,8-K" "8-K" 50 10 (fun f c => (f, c))
    (by decide)

/-- C5 (amended): the range parser never raises and parses the two bounds
independently: a missing `" - "` separator always yields a `None` high bound
(while the low bound may still parse from the whole residue); the spec's
worked examples hold. -/
theorem claim_C5 :
    (∀ s : String, breakOnDash (afterFirstDollar s.data) = none → high_amt s = none) ∧
    parse_amount_range "$1,001 - $15,000" = (some 1001, some 15000) ∧
    parse_amount_range "garbage" = (none, none) := by
  refine ⟨?_, by decide, by decide⟩
  intro s h
  simp [high_amt, dashPart1, h]

/-- C5, witness for the missing-separator case. -/
theorem claim_C5_witness : high_amt "garbage" = none :=
  claim_C5.1 "garbage" (by decide)

/-- C5, counterexample to the claim as stated: on `"$1,001"` the range
separator is missing, yet the parser returns `(1001, None)` — not
`(None, None)` for both bounds as the claim demands. -/
theorem claim_C5_counterexample : parse_amount_range "$1,001" = (some 1001, none) := by
  decide

/-- C6 (amended): the transaction-type extractor takes the first token of a
single-space split unchanged (no case normalization and no mapping); a
record's signed value is the estimate only for the exact token `"Purchase"`,
its negation only for the exact token `"Sale"`, and the constant 0 for every
other value — never an error. -/
theorem claim_C6 :
    (∀ (tt : Option String) (est : Option ℚ),
      tt ≠ some "Purchase" → tt ≠ some "Sale" → signedValue tt est = some 0) ∧
    (∀ est : Option ℚ, signedValue (some "Purchase") est = est) ∧
    (∀ est : Option ℚ, signedValue (some "Sale") est = est.map (fun v => -v)) ∧
    (∀ t : String, trans_type (some t) = some ⟨beforeFirst ' ' t.data⟩) ∧
    trans_type none = none ∧
    trans_type (some "Purchase 100") = some "Purchase" := by
  refine ⟨?_, fun est => rfl, fun est => rfl, fun t => rfl, rfl, by decide⟩
  intro tt est h1 h2
  simp [signedValue, h1, h2]

/-- C6, witness: an unmapped transaction type gets signed value 0. -/
theorem claim_C6_witness : signedValue (some "Exchange") (some 100) = some 0 :=
  claim_C6.1 (some "Exchange") (some 100) (by decide) (by decide)

/-- C6, counterexample to the claim as stated: the extraction is
case-**sensitive** and splits on a single space only — `"purchase"` and
`"SALE"` are not mapped to Purchase/Sale (their records get signed value 0
instead of ±estimate), and a tab-separated token is not split off. -/
theorem claim_C6_counterexample :
    trans_type (some "purchase 15000") = some "purchase" ∧
    signedValue (trans_type (some "purchase 15000")) (some 100) = some 0 ∧
    trans_type (some "SALE 200") = some "SALE" ∧
    signedValue (trans_type (some "SALE 200")) (some 100) = some 0 ∧
    trans_type (some "Purchase\t100") = some "Purchase\t100" := by
  decide

/-- C7 (amended): the accession extractor prefers the first digit run **of
length ≥ 10** following a `/data/<digits>/` segment; otherwise it returns the
longest (first on ties) digit run **of length ≥ 10**; it returns null exactly
when neither the preferred pattern matches nor any digit run of length ≥ 10
exists — short digit runs never count.  The spec's worked example holds. -/
theorem claim_C7 :
    (∀ (url : String) (r : List Char),
      searchData url.data = some r → acc_from_link url = some ⟨r⟩) ∧
    (∀ url : String,
      acc_from_link url = none ↔ searchData url.data = none ∧ runs10 url = []) ∧
    (∀ (url : String) (r : List Char) (rest : List (List Char)),
      searchData url.data = none → runs10 url = r :: rest →
      acc_from_link url = some ⟨maxByLen r rest⟩ ∧
      maxByLen r rest ∈ runs10 url ∧
      ∀ x ∈ runs10 url, x.length ≤ (maxByLen r rest).length) ∧
    acc_from_link "/Archives/edgar/data/0000320193/000032019323000106/x.htm"
      = some "000032019323000106" := by
  refine ⟨?_, ?_, ?_, by decide⟩
  · intro url r h
    simp [acc_from_link, h]
  · intro url
    simp only [acc_from_link]
    cases h : searchData url.data with
    | some r => simp
    | none =>
        cases h2 : runs10 url with
        | nil => simp
        | cons r rest => simp
  · intro url r rest h1 h2
    refine ⟨by simp [acc_from_link, h1, h2], ?_, ?_⟩
    · rw [h2]
      rcases maxByLen_choice r rest with h3 | h3
      · rw [h3]
        exact List.mem_cons_self r rest
      · exact List.mem_cons_of_mem r h3
    · intro x hx
      rw [h2] at hx
      rcases List.mem_cons.mp hx with rfl | hx
      · exact (maxByLen_ge x rest).1
      · exact (maxByLen_ge r rest).2 x hx

/-- C7, witness: a URL without the `/data/` pattern but with a single digit
run of length ≥ 10. -/
theorem claim_C7_witness :
    acc_from_link "/a/12345678901/b" = some ⟨maxByLen "12345678901".data []⟩ ∧
    maxByLen "12345678901".data [] ∈ runs10 "/a/12345678901/b" ∧
    ∀ x ∈ runs10 "/a/12345678901/b",
      x.length ≤ (maxByLen "12345678901".data []).length :=
  claim_C7.2.2.1 "/a/12345678901/b" "12345678901".data [] (by decide) (by decide)

/-- C7, counterexample to the claim as stated: `"/data/123/456/"` contains
digit runs (and even a `/data/<id>/<run>/` shape), but all runs are shorter
than 10 digits, so the extractor returns null — contradicting "it returns
null only when no digit run exists". -/
theorem claim_C7_counterexample : acc_from_link "/data/123/456/" = none := by
  decide

/-- C4 (amended): whenever the feed stage leaves fewer than `target_count`
filings (including some-but-not-enough), the HTML fallback is attempted
(page-start list nonempty, in 40-row steps); pagination stops when
`target_count` total filtered rows are accumulated **or when the page-start
budget `range(0, min(200, remaining+40), 40)` is exhausted** — the full
200-scanned-rows cap (5 pages) is only reached when at least 160 rows are
missing; with a smaller deficit the loop can end earlier with neither
condition of the original claim met. -/
theorem claim_C4 (pages : ℕ → List ScrapedRow) (wants : List String)
    (count : ℕ) (filings0 : List ScrapedRow) (h : filings0.length < count) :
    fallbackStarts count filings0.length ≠ [] ∧
    (count ≤ (secRecentFallback pages wants count filings0).length ∨
      fallbackPagesFetched pages wants count filings0
        = (fallbackStarts count filings0.length).length) ∧
    (160 ≤ count - filings0.length →
      fallbackStarts count filings0.length = [0, 40, 80, 120, 160]) := by
  refine ⟨?_, ?_, ?_⟩
  · have hlen : 0 < (fallbackStarts count filings0.length).length := by
      show 0 < ((List.range ((min 200 (count - filings0.length + 40) + 39) / 40)).map
        (fun i => i * 40)).length
      rw [List.length_map, List.length_range]
      exact Nat.div_pos (by omega) (by norm_num)
    exact List.ne_nil_of_length_pos hlen
  · simp only [secRecentFallback, fallbackPagesFetched, if_pos h]
    exact pageLoop_exhausts pages wants count _ filings0
  · intro h160
    have hmin : min 200 (count - filings0.length + 40) = 200 := by omega
    show (List.range ((min 200 (count - filings0.length + 40) + 39) / 40)).map
      (fun i => i * 40) = [0, 40, 80, 120, 160]
    rw [hmin]
    rfl

/-- C4, witness: one missing filing from an empty feed stage. -/
theorem claim_C4_witness :
    fallbackStarts 1 0 ≠ [] ∧
    (1 ≤ (secRecentFallback (fun _ => []) [] 1 []).length ∨
      fallbackPagesFetched (fun _ => []) [] 1 [] = (fallbackStarts 1 0).length) ∧
    (160 ≤ 1 - 0 → fallbackStarts 1 0 = [0, 40, 80, 120, 160]) :=
  claim_C4 (fun _ => []) [] 1 [] (by decide)

/-- C4, counterexample to the claim as stated: the feed stage leaves 10 of 50
filings, the upstream pages hold only rows failing the form filter; the loop
fetches exactly the 2 pages of its `min(200, remaining+40)` budget (80 rows
scanned, under the 200-row cap) and stops with 10 < 50 filings accumulated —
neither of the claim's two termination conditions holds. -/
theorem claim_C4_counterexample :
    fallbackPagesFetched (fun _ => List.replicate 40 ⟨3, "S-1"⟩) ["10-K"] 50
        (List.replicate 10 ⟨3, "10-K"⟩) = 2 ∧
    (secRecentFallback (fun _ => List.replicate 40 ⟨3, "S-1"⟩) ["10-K"] 50
        (List.replicate 10 ⟨3, "10-K"⟩)).length = 10 ∧
    fallbackStarts 50 10 = [0, 40] ∧
    (10 : ℕ) < 50 ∧ (2 : ℕ) * 40 < 200 := by
  decide

/-- C2: the ranking computation drops exactly the records missing a filed
date, signed value or symbol; the grouped series holds one entry per
surviving symbol with its summed signed value; bottom-n and top-n split the
grouped series so that every bottom entry is ≤ every remaining net sum and
every top entry is ≥ every remaining net sum; and the spec's worked example
evaluates as stated. -/
theorem claim_C2 :
    (∀ (rs : List TradeRecord) (r : TradeRecord),
      r ∈ survivors rs ↔
        r ∈ rs ∧ r.filed ≠ none ∧ r.signedValue ≠ none ∧ r.stock ≠ none) ∧
    (∀ (rs : List TradeRecord) (s : String),
      (s, netSum rs s) ∈ netList rs ↔
        s ∈ (survivors rs).filterMap (fun r => r.stock)) ∧
    (∀ (rs : List TradeRecord) (n : ℕ), ∃ rest : List (String × ℚ),
      ((computeTopBottom rs n).bottom10 ++ rest).Perm (netList rs) ∧
      ∀ p ∈ (computeTopBottom rs n).bottom10, ∀ q ∈ rest, p.2 ≤ q.2) ∧
    (∀ (rs : List TradeRecord) (n : ℕ), ∃ rest : List (String × ℚ),
      ((computeTopBottom rs n).top10 ++ rest).Perm (netList rs) ∧
      ∀ p ∈ (computeTopBottom rs n).top10, ∀ q ∈ rest, q.2 ≤ p.2) ∧
    computeTopBottom exC2 1 = ⟨some (1, 3), [("A", 70)], [("B", 50)]⟩ := by
  refine ⟨?_, ?_, ?_, ?_, ?_⟩
  · intro rs r
    simp [survivors, List.mem_filter, Option.isSome_iff_ne_none, and_assoc]
  · intro rs s
    simp only [netList, List.mem_map, Prod.mk.injEq]
    constructor
    · rintro ⟨k, hk, hks, -⟩
      exact (mem_groupKeys _ s).mp (hks ▸ hk)
    · intro hs
      exact ⟨s, (mem_groupKeys _ s).mpr hs, rfl, rfl⟩
  · intro rs n
    refine ⟨(sortedNet rs).drop n, ?_, ?_⟩
    · show ((sortedNet rs).take n ++ (sortedNet rs).drop n).Perm (netList rs)
      rw [List.take_append_drop]
      exact sortedNet_perm rs
    · have hp := sortedNet_le rs
      rw [← List.take_append_drop n (sortedNet rs)] at hp
      exact fun p hp' q hq => (List.pairwise_append.mp hp).2.2 p hp' q hq
  · intro rs n
    refine ⟨((sortedNet rs).reverse).drop n, ?_, ?_⟩
    · show (((sortedNet rs).reverse).take n ++ ((sortedNet rs).reverse).drop n).Perm
        (netList rs)
      rw [List.take_append_drop]
      exact ((sortedNet rs).reverse_perm).trans (sortedNet_perm rs)
    · have hp : ((sortedNet rs).reverse).Pairwise (fun x y : String × ℚ => y.2 ≤ x.2) :=
        List.pairwise_reverse.mpr (sortedNet_le rs)
      rw [← List.take_append_drop n ((sortedNet rs).reverse)] at hp
      exact fun p hp' q hq => (List.pairwise_append.mp hp).2.2 p hp' q hq
  · have h2 : netSum exC2 "A" = 70 := by
      show ((100 : ℚ) + ((-30) + 0)) = 70
      norm_num
    have h3 : netSum exC2 "B" = 50 := by
      show ((50 : ℚ) + 0) = 50
      norm_num
    have h1 : netList exC2 = [("A", netSum exC2 "A"), ("B", netSum exC2 "B")] := rfl
    have hs : sortedNet exC2 = [("B", 50), ("A", 70)] := by
      rw [sortedNet, h1, h2, h3]
      rfl
    show RankingResult.mk (dateRangeOf exC2) (((sortedNet exC2).reverse).take 1)
      ((sortedNet exC2).take 1) = ⟨some (1, 3), [("A", 70)], [("B", 50)]⟩
    rw [hs]
    rfl

/-- C8 (amended): the output ordering is deterministic under the stable-sort
model, but tied symbols appear in **ascending** symbol order only in the
bottom-n list; in the top-n list, produced by reversing the ascending sort,
tied symbols appear in **descending** symbol order. -/
theorem claim_C8 (rs : List TradeRecord) (n : ℕ) :
    (computeTopBottom rs n).bottom10.Pairwise valLexAsc ∧
    (computeTopBottom rs n).top10.Pairwise valLexDesc := by
  constructor
  · show ((sortedNet rs).take n).Pairwise valLexAsc
    exact List.Pairwise.sublist (List.take_sublist n _) (sortedNet_lex rs)
  · have h1 : ((sortedNet rs).reverse).Pairwise valLexDesc := by
      rw [List.pairwise_reverse]
      exact (sortedNet_lex rs).imp (fun h => valLexAsc_flip h)
    show (((sortedNet rs).reverse).take n).Pairwise valLexDesc
    exact List.Pairwise.sublist (List.take_sublist n _) h1

/-- C8, witness: the take/reverse characterization at a concrete input. -/
theorem claim_C8_witness :
    (computeTopBottom exTie 2).bottom10.Pairwise valLexAsc ∧
    (computeTopBottom exTie 2).top10.Pairwise valLexDesc :=
  claim_C8 exTie 2

/-- C8, counterexample to the claim as stated: symbols `"A" < "B"` with equal
net sums appear as `[B, A]` — descending, not ascending — in the top list. -/
theorem claim_C8_counterexample :
    (computeTopBottom exTie 2).top10 = [("B", 50), ("A", 50)] ∧
    symLt "A" "B" = true := by
  constructor
  · have h2 : netSum exTie "A" = 50 := by
      show ((50 : ℚ) + 0) = 50
      norm_num
    have h3 : netSum exTie "B" = 50 := by
      show ((50 : ℚ) + 0) = 50
      norm_num
    have h1 : netList exTie = [("A", netSum exTie "A"), ("B", netSum exTie "B")] := rfl
    have hs : sortedNet exTie = [("A", 50), ("B", 50)] := by
      rw [sortedNet, h1, h2, h3]
      rfl
    show ((sortedNet exTie).reverse).take 2 = [("B", 50), ("A", 50)]
    rw [hs]
    rfl
  · decide

end FountainAI
